import Mathlib

/-!
Verification of the abistr string library: a shallow embedding of the
encoding decode steps (`src/abistr/src/encoding.rs`), the fixed-capacity
buffer operations (`src/abistr/src/buffers.rs`) and the nullable /
non-null pointer views (`src/abistr/src/pointers.rs`), together with
theorems settling the specified properties.

Code units are embedded as `Nat` (`u8` < 2^8, `u16` < 2^16, `u32` < 2^32);
a mutable `&mut &[T]` slice argument becomes explicit state passing:
each decode step returns the produced value together with the remaining
slice.  `Result<T, ()>` becomes `Except Unit T`.
-/

set_option maxRecDepth 4000

/-- Rust's `char::from_u32` succeeds exactly on Unicode scalar values:
below the surrogate range, or between it and 0x110000. -/
def isUnicodeScalar (v : Nat) : Bool := v < 0xD800 || (0xE000 ≤ v && v < 0x110000)

/-- Embedding of `char::from_u32(v).ok_or(())`. -/
def charFromU32 (v : Nat) : Except Unit Nat := if isUnicodeScalar v then .ok v else .error ()

/-- Lead-byte classification of `Utf8::next_char` (`encoding.rs`):
the declared sequence length for each lead byte, `none` for the
continuation-only leads `0x80..=0xBF` and the legacy leads `0xF8..=0xFF`. -/
def utf8LeadSize (lead : Nat) : Option Nat :=
  if lead ≤ 0x7F then some 1
  else if lead ≤ 0xBF then none
  else if lead ≤ 0xDF then some 2
  else if lead ≤ 0xEF then some 3
  else if lead ≤ 0xF7 then some 4
  else none

/-- Is `b` a UTF-8 continuation byte (`0x80..=0xBF`)? -/
def isUtf8Cont (b : Nat) : Bool := 0x80 ≤ b && b ≤ 0xBF

/-- Embedding of `core::str::from_utf8(ch)` followed by `.chars().next()`
on the exact chunk split off by `Utf8::next_char`: decodes the chunk as a
single UTF-8 sequence, rejecting bad continuation bytes, overlong forms,
surrogate code points and values above 0x10FFFF (the standard UTF-8
validation table used by Rust core). -/
def fromUtf8FirstChar (ch : List Nat) : Option Nat :=
  match ch with
  | [b0] => if b0 < 0x80 then some b0 else none
  | [b0, b1] =>
      if 0xC2 ≤ b0 ∧ b0 ≤ 0xDF ∧ isUtf8Cont b1
      then some ((b0 % 32) * 64 + b1 % 64) else none
  | [b0, b1, b2] =>
      if (if b0 = 0xE0 then 0xA0 ≤ b1 ∧ b1 ≤ 0xBF
          else if b0 = 0xED then 0x80 ≤ b1 ∧ b1 ≤ 0x9F
          else 0xE0 ≤ b0 ∧ b0 ≤ 0xEF ∧ isUtf8Cont b1) ∧ isUtf8Cont b2
      then some ((b0 % 16) * 4096 + (b1 % 64) * 64 + b2 % 64) else none
  | [b0, b1, b2, b3] =>
      if (if b0 = 0xF0 then 0x90 ≤ b1 ∧ b1 ≤ 0xBF
          else if b0 = 0xF4 then 0x80 ≤ b1 ∧ b1 ≤ 0x8F
          else 0xF0 ≤ b0 ∧ b0 ≤ 0xF4 ∧ isUtf8Cont b1) ∧ isUtf8Cont b2 ∧ isUtf8Cont b3
      then some ((b0 % 8) * 262144 + (b1 % 64) * 4096 + (b2 % 64) * 64 + b3 % 64) else none
  | _ => none

/-- Embedding of `Utf8::next_char` (`encoding.rs` lines 229-246): classify
the lead byte; error (consuming one unit) on continuation-only or legacy
leads; error (consuming everything) when fewer than `size` units remain;
otherwise split off `size` units and decode them via `core::str::from_utf8`. -/
def Utf8.next_char (units : List Nat) : Except Unit Nat × List Nat :=
  match units with
  | [] => (.error (), [])
  | lead :: after =>
    match utf8LeadSize lead with
    | none => (.error (), after)
    | some size =>
      if size > units.length then (.error (), [])
      else
        match fromUtf8FirstChar (units.take size) with
        | some c => (.ok c, units.drop size)
        | none => (.error (), units.drop size)

/-- Embedding of `Utf8ish::next_char`:
`Ok(Utf8::next_char(units).unwrap_or(char::REPLACEMENT_CHARACTER))`. -/
def Utf8ish.next_char (units : List Nat) : Except Unit Nat × List Nat :=
  let r := Utf8.next_char units
  (.ok (match r.1 with | .ok c => c | .error _ => 0xFFFD), r.2)

/-- Constant `SURROGATE_SIGNAL_MASK` from `Utf16::next_char`: `0b11111100_00000000`. -/
def SURROGATE_SIGNAL_MASK : Nat := 0xFC00

/-- Constant `SURROGATE_VALUE_MASK` from `Utf16::next_char`: `0b00000011_00000000`
(as written in the source, this is 0x0300 - two bits, not the ten value
bits 0x03FF of a surrogate). -/
def SURROGATE_VALUE_MASK : Nat := 0x0300

/-- Constant `SURROGATE_HIGH` from `Utf16::next_char`: `0b110110_0000000000`. -/
def SURROGATE_HIGH : Nat := 0xD800

/-- Constant `SURROGATE_LOW` from `Utf16::next_char`: `0b110111_0000000000`. -/
def SURROGATE_LOW : Nat := 0xDC00

/-- Embedding of `Utf16::next_char` (`encoding.rs` lines 273-299).  The
combining expression `(hi & SURROGATE_VALUE_MASK) << 10 | (lo & SURROGATE_VALUE_MASK)`
is `u16` arithmetic, so the shifted term is reduced mod 2^16. -/
def Utf16.next_char (units : List Nat) : Except Unit Nat × List Nat :=
  match units with
  | [] => (.error (), [])
  | first :: rest =>
    if first &&& SURROGATE_SIGNAL_MASK = SURROGATE_LOW then
      match rest with
      | [] => (.error (), [])
      | hi :: rest2 =>
        let lo := first
        if hi &&& SURROGATE_SIGNAL_MASK ≠ SURROGATE_HIGH then (.error (), rest)
        else (charFromU32 ((((hi &&& SURROGATE_VALUE_MASK) <<< 10) % 65536) ||| (lo &&& SURROGATE_VALUE_MASK)), rest2)
    else if first &&& SURROGATE_SIGNAL_MASK = SURROGATE_HIGH then
      match rest with
      | [] => (.error (), [])
      | lo :: rest2 =>
        let hi := first
        if lo &&& SURROGATE_SIGNAL_MASK ≠ SURROGATE_LOW then (.error (), rest)
        else (charFromU32 ((((hi &&& SURROGATE_VALUE_MASK) <<< 10) % 65536) ||| (lo &&& SURROGATE_VALUE_MASK)), rest2)
    else
      (charFromU32 first, rest)

/-- Embedding of `Utf16ish::next_char`:
`Ok(Utf16::next_char(units).unwrap_or(char::REPLACEMENT_CHARACTER))`. -/
def Utf16ish.next_char (units : List Nat) : Except Unit Nat × List Nat :=
  let r := Utf16.next_char units
  (.ok (match r.1 with | .ok c => c | .error _ => 0xFFFD), r.2)

/-- Embedding of `Utf32ish::next_char`:
`char::try_from(*take_first(units).ok_or(())?).map_err(|_| {})`. -/
def Utf32ish.next_char (units : List Nat) : Except Unit Nat × List Nat :=
  match units with
  | [] => (.error (), [])
  | u :: rest => (charFromU32 u, rest)


/-- Embedding of `CStrBuf::try_set` (`buffers.rs` lines 151-158) as state
passing on the underlying buffer: fail without touching the buffer when
`src.len() >= dst.len()`; otherwise copy `data` into the leading slots,
store `NUL` right after it, and leave the tail of the buffer as it was. -/
def CStrBuf.try_set (buffer : List Nat) (data : List Nat) : Except Unit Unit × List Nat :=
  if data.length ≥ buffer.length then (.error (), buffer)
  else (.ok (), data ++ 0 :: buffer.drop (data.length + 1))

/-- Embedding of `CStrBuf::set_truncate` (`buffers.rs` lines 127-135):
`n = (dst.len()-1).min(src.len())` leading units are copied, `dst[n]` is
set to `NUL`, and the call errs afterwards iff `src.len() >= dst.len()`.
(The source indexing panics on a zero-capacity buffer; claims over this
embedding therefore assume a positive capacity.) -/
def CStrBuf.set_truncate (buffer : List Nat) (data : List Nat) : Except Unit Unit × List Nat :=
  let n := min (buffer.length - 1) data.length
  ((if data.length ≥ buffer.length then .error () else .ok ()),
   data.take n ++ 0 :: buffer.drop (n + 1))

/-- Embedding of `strlen` (`unit.rs` lines 63-70) on the readable memory
behind a pointer: the number of units before the first `NUL`.  (The
source loops forever / reads out of bounds when no `NUL` exists; the
pointer views require the pointed-to memory to contain one.) -/
def strlen (mem : List Nat) : Nat := (mem.takeWhile (fun u => u ≠ 0)).length

/-- A `CStrPtr` over an abstract memory: `none` is the null pointer,
`some mem` a non-null pointer whose readable contents are `mem`
(`pointers.rs` struct `CStrPtr`). -/
abbrev CStrPtrModel : Type := Option (List Nat)

/-- Embedding of `CStrPtr::is_empty` (`pointers.rs` line 71):
`self.ptr.is_null() || NUL == *self.ptr` - reading `*self.ptr` is
modelled as reading the head of the pointed-to memory. -/
def CStrPtr.is_empty (p : CStrPtrModel) : Bool :=
  match p with
  | none => true
  | some mem => mem.head? = some 0

/-- Embedding of `CStrPtr::to_units` (`pointers.rs` lines 76-80): the
empty slice for null, else `strlen` units from the start. -/
def CStrPtr.to_units (p : CStrPtrModel) : List Nat :=
  match p with
  | none => []
  | some mem => mem.take (strlen mem)

/-- Embedding of `CStrPtr::to_units_with_nul` (`pointers.rs` lines 85-89):
`E::Unit::EMPTY` (the one-unit slice `[0]`) for null, else `strlen + 1`
units from the start. -/
def CStrPtr.to_units_with_nul (p : CStrPtrModel) : List Nat :=
  match p with
  | none => [0]
  | some mem => mem.take (strlen mem + 1)

/-- Embedding of `CStrPtr::to_string_lossy` (`pointers.rs` line 94):
`E::to_string_lossy(self.to_units())`, parameterised by the encoding's
lossy decoder. -/
def CStrPtr.to_string_lossy (decode : List Nat → List Nat) (p : CStrPtrModel) : List Nat :=
  decode (CStrPtr.to_units p)

/-- Embedding of `CStrPtr::from_units_with_nul` (`pointers.rs` lines
45-51): run the encoding validation (`E::from_units`; every validator in
the source is per-unit: infallible ones accept every unit, `Utf32` from
`u32` accepts exactly the valid bit patterns of `char`), then fail if the
slice is empty, if its last unit is not `NUL`, or if an interior unit is
`NUL`; otherwise return a view over the given units. -/
def CStrPtr.from_units_with_nul (valid : Nat → Bool) (units : List Nat) : Except Unit (List Nat) :=
  if units.all valid then
    match units.getLast? with
    | none => .error ()
    | some last =>
      if last = 0 then
        if 0 ∈ units.dropLast then .error () else .ok units
      else .error ()
  else .error ()

/-- Embedding of `CStrNonNull::from_units_with_nul` (`pointers.rs` lines
221-227); the body is unit-for-unit the same as `CStrPtr`'s. -/
def CStrNonNull.from_units_with_nul (valid : Nat → Bool) (units : List Nat) : Except Unit (List Nat) :=
  if units.all valid then
    match units.getLast? with
    | none => .error ()
    | some last =>
      if last = 0 then
        if 0 ∈ units.dropLast then .error () else .ok units
      else .error ()
  else .error ()

/-- Embedding of `String::from_utf8_lossy` (Rust std), the body of
`Utf8::to_string_lossy` and `Utf8ish::to_string_lossy` (`encoding.rs`
lines 248 and 259): standard UTF-8 decoding, substituting U+FFFD for each
maximal invalid subpart.  The multi-byte values are written with the
arithmetically identical `/`, `%`, `*`, `+` forms of the usual shifts and
masks. -/
def fromUtf8Lossy : List Nat → List Nat
  | [] => []
  | b0 :: rest =>
    if b0 < 0x80 then b0 :: fromUtf8Lossy rest
    else if b0 < 0xC2 then 0xFFFD :: fromUtf8Lossy rest
    else if b0 ≤ 0xDF then
      match rest with
      | [] => [0xFFFD]
      | b1 :: rest2 =>
        if isUtf8Cont b1 then ((b0 % 32) * 64 + b1 % 64) :: fromUtf8Lossy rest2
        else 0xFFFD :: fromUtf8Lossy (b1 :: rest2)
    else if b0 ≤ 0xEF then
      match rest with
      | [] => [0xFFFD]
      | b1 :: rest2 =>
        if ¬ (if b0 = 0xE0 then 0xA0 ≤ b1 ∧ b1 ≤ 0xBF
              else if b0 = 0xED then 0x80 ≤ b1 ∧ b1 ≤ 0x9F
              else isUtf8Cont b1 = true) then 0xFFFD :: fromUtf8Lossy (b1 :: rest2)
        else
          match rest2 with
          | [] => [0xFFFD]
          | b2 :: rest3 =>
            if isUtf8Cont b2 then ((b0 % 16) * 4096 + (b1 % 64) * 64 + b2 % 64) :: fromUtf8Lossy rest3
            else 0xFFFD :: fromUtf8Lossy (b2 :: rest3)
    else if b0 ≤ 0xF4 then
      match rest with
      | [] => [0xFFFD]
      | b1 :: rest2 =>
        if ¬ (if b0 = 0xF0 then 0x90 ≤ b1 ∧ b1 ≤ 0xBF
              else if b0 = 0xF4 then 0x80 ≤ b1 ∧ b1 ≤ 0x8F
              else isUtf8Cont b1 = true) then 0xFFFD :: fromUtf8Lossy (b1 :: rest2)
        else
          match rest2 with
          | [] => [0xFFFD]
          | b2 :: rest3 =>
            if ¬ isUtf8Cont b2 then 0xFFFD :: fromUtf8Lossy (b2 :: rest3)
            else
              match rest3 with
              | [] => [0xFFFD]
              | b3 :: rest4 =>
                if isUtf8Cont b3
                then ((b0 % 8) * 262144 + (b1 % 64) * 4096 + (b2 % 64) * 64 + b3 % 64) :: fromUtf8Lossy rest4
                else 0xFFFD :: fromUtf8Lossy (b3 :: rest4)
    else 0xFFFD :: fromUtf8Lossy rest
termination_by l => l.length
decreasing_by all_goals simp_all [List.length_cons] <;> omega

/-- Embedding of `String::from_utf16_lossy` (Rust std), the body of
`Utf16::to_string_lossy` and `Utf16ish::to_string_lossy` (`encoding.rs`
lines 301 and 313): `char::decode_utf16` with U+FFFD substitution - a
high surrogate followed by a low surrogate combines into
`0x10000 + (hi - 0xD800) * 0x400 + (lo - 0xDC00)`; any unpaired
surrogate becomes one U+FFFD, consuming one unit. -/
def fromUtf16Lossy : List Nat → List Nat
  | [] => []
  | u :: rest =>
    if u < 0xD800 ∨ 0xE000 ≤ u then u :: fromUtf16Lossy rest
    else if u < 0xDC00 then
      match rest with
      | [] => [0xFFFD]
      | lo :: rest2 =>
        if 0xDC00 ≤ lo ∧ lo < 0xE000
        then (0x10000 + (u - 0xD800) * 0x400 + (lo - 0xDC00)) :: fromUtf16Lossy rest2
        else 0xFFFD :: fromUtf16Lossy (lo :: rest2)
    else 0xFFFD :: fromUtf16Lossy rest
termination_by l => l.length
decreasing_by all_goals simp_all [List.length_cons] <;> omega

/-- Embedding of `Utf32::to_string_lossy` (`encoding.rs` lines 325-327):
`String::from_iter(units.iter().copied())` - the units already are
`char`s, so the scalar-value sequence is readed off unchanged. -/
def Utf32.to_string_lossy (units : List Nat) : List Nat := units

/-- Standard UTF-8 encoding of one Unicode scalar value; the image of
scalar-value sequences under this map is exactly the set of valid strict
UTF-8 unit sequences named by the round-trip claim. -/
def utf8EncodeChar (v : Nat) : List Nat :=
  if v < 0x80 then [v]
  else if v < 0x800 then [0xC0 + v / 64, 0x80 + v % 64]
  else if v < 0x10000 then [0xE0 + v / 4096, 0x80 + v / 64 % 64, 0x80 + v % 64]
  else [0xF0 + v / 262144, 0x80 + v / 4096 % 64, 0x80 + v / 64 % 64, 0x80 + v % 64]

/-- Standard UTF-8 encoding of a scalar-value sequence. -/
def utf8Encode : List Nat → List Nat
  | [] => []
  | c :: cs => utf8EncodeChar c ++ utf8Encode cs

/-- Standard UTF-16 encoding of one Unicode scalar value. -/
def utf16EncodeChar (v : Nat) : List Nat :=
  if v < 0x10000 then [v]
  else [0xD800 + (v - 0x10000) / 0x400, 0xDC00 + (v - 0x10000) % 0x400]

/-- Standard UTF-16 encoding of a scalar-value sequence. -/
def utf16Encode : List Nat → List Nat
  | [] => []
  | c :: cs => utf16EncodeChar c ++ utf16Encode cs


/-- The surrogate-pair combination the specification prescribes:
`((high & 0x3FF) << 10) + (low & 0x3FF) + 0x10000`.  Stated from the
spec's words for comparison against `Utf16.next_char`. -/
def spec_utf16_combine (hi lo : Nat) : Nat :=
  ((hi &&& 0x3FF) <<< 10) + (lo &&& 0x3FF) + 0x10000

/-- C1: on the valid surrogate pair `[0xD800, 0xDC00]` (the encoding of
U+10000) `Utf16::next_char` returns the scalar value 0, while the
spec formula gives 0x10000; the source's `SURROGATE_VALUE_MASK` is
`0b00000011_00000000` = 0x0300 rather than the ten value bits 0x03FF, the
`<< 10` overflows `u16`, and `+ 0x10000` is absent, so no valid pair can
ever decode to its supplementary-plane scalar value. -/
theorem utf16_next_char_valid_pair_diverges_from_spec :
    Utf16.next_char [0xD800, 0xDC00] = (.ok 0, []) ∧
    spec_utf16_combine 0xD800 0xDC00 = 0x10000 ∧
    (0 : Nat) ≠ 0x10000 :=
  ⟨rfl, rfl, by decide⟩

/-- C10: the lenient single-step decoders wrap every strict result in
`Ok`, substituting U+FFFD for strict errors, so they never return `Err`;
on the empty slice they return `Ok(U+FFFD)` and consume nothing. -/
theorem ish_next_char_never_errors (us8 us16 : List Nat) :
    (∃ c, (Utf8ish.next_char us8).1 = .ok c) ∧
    (∃ c, (Utf16ish.next_char us16).1 = .ok c) ∧
    Utf8ish.next_char [] = (.ok 0xFFFD, []) ∧
    Utf16ish.next_char [] = (.ok 0xFFFD, []) :=
  ⟨⟨_, rfl⟩, ⟨_, rfl⟩, rfl, rfl⟩

/-- Helper fact: `utf8LeadSize` only ever declares sizes 1 through 4. -/
theorem utf8LeadSize_pos (lead n : Nat) (h : utf8LeadSize lead = some n) : 1 ≤ n := by
  unfold utf8LeadSize at h
  split_ifs at h <;> simp_all
  all_goals omega

/-- Strict `Utf8::next_char` consumes at least one unit of a non-empty slice. -/
theorem utf8_next_char_shrinks (us : List Nat) (h : us ≠ []) :
    (Utf8.next_char us).2.length < us.length := by
  match us with
  | lead :: after =>
    simp only [Utf8.next_char]
    cases hs : utf8LeadSize lead with
    | none => simp
    | some n =>
      have hn := utf8LeadSize_pos lead n hs
      by_cases hlen : n > (lead :: after).length
      · simp only [hlen, if_pos]
        simp
      · simp only [hlen, if_neg, ite_false]
        cases hc : fromUtf8FirstChar ((lead :: after).take n) <;>
          simp [List.length_drop, List.length_cons] <;> omega

/-- Strict `Utf16::next_char` consumes at least one unit of a non-empty slice. -/
theorem utf16_next_char_shrinks (us : List Nat) (h : us ≠ []) :
    (Utf16.next_char us).2.length < us.length := by
  match us with
  | first :: rest =>
    simp only [Utf16.next_char]
    by_cases h1 : first &&& SURROGATE_SIGNAL_MASK = SURROGATE_LOW
    · simp only [h1, if_pos]
      cases rest with
      | nil => simp
      | cons hi rest2 =>
        by_cases h2 : hi &&& SURROGATE_SIGNAL_MASK ≠ SURROGATE_HIGH <;>
          simp [h2] <;> omega
    · simp only [h1, if_neg, ite_false]
      by_cases h2 : first &&& SURROGATE_SIGNAL_MASK = SURROGATE_HIGH
      · simp only [h2, if_pos]
        cases rest with
        | nil => simp
        | cons lo rest2 =>
          by_cases h3 : lo &&& SURROGATE_SIGNAL_MASK ≠ SURROGATE_LOW <;>
            simp [h3] <;> omega
      · simp [h2]

/-- C5: each lenient decode step (`Utf8ish`, `Utf16ish`, `Utf32ish`)
leaves a strictly shorter slice on every non-empty input - it always
consumes at least one unit, whether it succeeds or substitutes - so
iterating until the slice is empty takes at most `len(units)` steps. -/
theorem lenient_next_char_consumes (us8 us16 us32 : List Nat)
    (h8 : us8 ≠ []) (h16 : us16 ≠ []) (h32 : us32 ≠ []) :
    (Utf8ish.next_char us8).2.length < us8.length ∧
    (Utf16ish.next_char us16).2.length < us16.length ∧
    (Utf32ish.next_char us32).2.length < us32.length := by
  refine ⟨utf8_next_char_shrinks us8 h8, utf16_next_char_shrinks us16 h16, ?_⟩
  match us32 with
  | u :: rest => simp [Utf32ish.next_char]

/-- Witness for C5 at the slices `[0xFF]`, `[0xDC00]`, `[0x110000]`. -/
theorem lenient_next_char_consumes_witness :
    ([0xFF] : List Nat) ≠ [] ∧ ([0xDC00] : List Nat) ≠ [] ∧ ([0x110000] : List Nat) ≠ [] ∧
    ((Utf8ish.next_char [0xFF]).2.length < 1 ∧
     (Utf16ish.next_char [0xDC00]).2.length < 1 ∧
     (Utf32ish.next_char [0x110000]).2.length < 1) :=
  ⟨by decide, by decide, by decide,
   lenient_next_char_consumes [0xFF] [0xDC00] [0x110000] (by decide) (by decide) (by decide)⟩

/-- C4 counterexample: `[0xDC00, 0xD800]` starts with a low surrogate,
yet `Utf16::next_char` does not report an error - the `SURROGATE_LOW`
branch pairs the low surrogate with a following high surrogate and
returns `Ok`. -/
theorem utf16_low_surrogate_first_not_always_error :
    (0xDC00 &&& SURROGATE_SIGNAL_MASK = SURROGATE_LOW) ∧
    Utf16.next_char [0xDC00, 0xD800] = (.ok 0, []) ∧
    (Utf16.next_char [0xDC00, 0xD800]).1 ≠ .error () :=
  ⟨by decide, rfl, fun h => Except.noConfusion h⟩

/-- The value `Utf16::next_char` combines a surrogate pair into is always
below the surrogate range (it is at most `0x300`), so `char::from_u32`
accepts it. -/
theorem utf16_combined_value_lt (hi lo : Nat) :
    (((hi &&& SURROGATE_VALUE_MASK) <<< 10) % 65536) ||| (lo &&& SURROGATE_VALUE_MASK) < 0xD800 := by
  have hm : (hi &&& SURROGATE_VALUE_MASK) % 256 = 0 := by
    have h1 : (hi &&& 768) &&& 255 = hi &&& (768 &&& 255) := Nat.and_assoc ..
    have h2 : (hi &&& 768) &&& 255 = (hi &&& 768) % 256 := by
      have := Nat.and_pow_two_sub_one_eq_mod (hi &&& 768) 8
      simpa using this
    simp only [show (768 &&& 255 : Nat) = 0 by decide, Nat.and_zero] at h1
    simp only [SURROGATE_VALUE_MASK]
    omega
  have ha : hi &&& SURROGATE_VALUE_MASK ≤ 768 := Nat.and_le_right
  have hz : ((hi &&& SURROGATE_VALUE_MASK) <<< 10) % 65536 = 0 := by
    rw [Nat.shiftLeft_eq]
    omega
  rw [hz, Nat.zero_or]
  have : lo &&& SURROGATE_VALUE_MASK ≤ 768 := Nat.and_le_right
  omega

/-- C4 amended: on a slice starting with a low surrogate,
`Utf16::next_char` reports an error if and only if the low surrogate is
not immediately followed by a high surrogate (including at end of
input); when a high surrogate does follow, both units are consumed and
an `Ok` result is returned. -/
theorem utf16_low_surrogate_first_amended (lo : Nat) (rest : List Nat)
    (h : lo &&& SURROGATE_SIGNAL_MASK = SURROGATE_LOW) :
    ((Utf16.next_char (lo :: rest)).1 = .error () ↔
      ¬ ∃ hi rest2, rest = hi :: rest2 ∧ hi &&& SURROGATE_SIGNAL_MASK = SURROGATE_HIGH) ∧
    (∀ hi rest2, rest = hi :: rest2 → hi &&& SURROGATE_SIGNAL_MASK = SURROGATE_HIGH →
      (Utf16.next_char (lo :: rest)).2 = rest2 ∧
      (∃ c, (Utf16.next_char (lo :: rest)).1 = .ok c)) := by
  have hgoal : ∀ hi : Nat,
      charFromU32 ((((hi &&& SURROGATE_VALUE_MASK) <<< 10) % 65536) ||| (lo &&& SURROGATE_VALUE_MASK)) =
        .ok ((((hi &&& SURROGATE_VALUE_MASK) <<< 10) % 65536) ||| (lo &&& SURROGATE_VALUE_MASK)) := by
    intro hi
    have := utf16_combined_value_lt hi lo
    simp [charFromU32, isUnicodeScalar]
    omega
  constructor
  · simp only [Utf16.next_char, h, if_pos]
    cases rest with
    | nil => simp
    | cons hi rest2 =>
      by_cases h2 : hi &&& SURROGATE_SIGNAL_MASK = SURROGATE_HIGH
      · simp only [h2, ne_eq, not_true_eq_false, if_neg, ite_false, hgoal hi]
        simp [h2]
      · simp only [ne_eq, h2, not_false_eq_true, if_pos, ite_true]
        simp [h2]
  · intro hi rest2 hrest h2
    subst hrest
    simp only [Utf16.next_char, h, if_pos, ne_eq, h2, not_true_eq_false, if_neg, ite_false,
      hgoal hi]
    simp

/-- Witness for the amended C4 at `lo = 0xDC00`, `rest = [0xD800]`. -/
theorem utf16_low_surrogate_first_amended_witness :
    (0xDC00 &&& SURROGATE_SIGNAL_MASK = SURROGATE_LOW) ∧
    (((Utf16.next_char [0xDC00, 0xD800]).1 = .error () ↔
       ¬ ∃ hi rest2, ([0xD800] : List Nat) = hi :: rest2 ∧ hi &&& SURROGATE_SIGNAL_MASK = SURROGATE_HIGH) ∧
     (∀ hi rest2, ([0xD800] : List Nat) = hi :: rest2 → hi &&& SURROGATE_SIGNAL_MASK = SURROGATE_HIGH →
       (Utf16.next_char [0xDC00, 0xD800]).2 = rest2 ∧
       (∃ c, (Utf16.next_char [0xDC00, 0xD800]).1 = .ok c))) :=
  ⟨by decide, utf16_low_surrogate_first_amended 0xDC00 [0xD800] (by decide)⟩


/-- Decomposition of a buffer of the shape `written ++ terminator ++ old
tail`: its first `n` slots hold the written units, slot `n` holds the
terminator, and everything past slot `n` is the old tail. -/
theorem append_terminator_spec (l r : List Nat) (x : Nat) (n : Nat) (hn : l.length = n) :
    (l ++ x :: r).take n = l ∧ (l ++ x :: r)[n]? = some x ∧ (l ++ x :: r).drop (n + 1) = r := by
  subst hn
  refine ⟨List.take_left .., ?_, ?_⟩
  · rw [List.getElem?_append_right (le_refl _)]
    simp
  · simp [List.drop_append]

/-- C2: `try_set` fails exactly when `data` plus a terminator does not
fit the capacity; on failure the whole buffer is byte-for-byte
unchanged, and on success the buffer holds `data`, then a `NUL`, with
everything past the terminator untouched - never a partial write.  The
buffer's length is preserved in both cases. -/
theorem try_set_full_write_or_untouched (buffer data : List Nat) :
    ((CStrBuf.try_set buffer data).1 = .error () ↔ buffer.length < data.length + 1) ∧
    (CStrBuf.try_set buffer data).2.length = buffer.length ∧
    ((CStrBuf.try_set buffer data).1 = .error () → (CStrBuf.try_set buffer data).2 = buffer) ∧
    ((CStrBuf.try_set buffer data).1 = .ok () →
      (CStrBuf.try_set buffer data).2.take data.length = data ∧
      ((CStrBuf.try_set buffer data).2)[data.length]? = some 0 ∧
      ((CStrBuf.try_set buffer data).2).drop (data.length + 1) = buffer.drop (data.length + 1)) := by
  by_cases h : data.length ≥ buffer.length
  · have he : CStrBuf.try_set buffer data = (.error (), buffer) := by
      simp [CStrBuf.try_set, h]
    rw [he]
    exact ⟨iff_of_true rfl (by omega), rfl, fun _ => rfl, fun hok => Except.noConfusion hok⟩
  · have he : CStrBuf.try_set buffer data =
        (.ok (), data ++ 0 :: buffer.drop (data.length + 1)) := by
      simp [CStrBuf.try_set, h]
    rw [he]
    obtain ⟨h1, h2, h3⟩ :=
      append_terminator_spec data (buffer.drop (data.length + 1)) 0 data.length rfl
    refine ⟨iff_of_false (fun hk => Except.noConfusion hk) (by omega), ?_,
      fun herr => Except.noConfusion herr, fun _ => ⟨h1, h2, h3⟩⟩
    simp only [List.length_append, List.length_cons, List.length_drop]
    omega

/-- C3: for a buffer of positive capacity, `set_truncate` stores the
first `min(len(data), capacity - 1)` units of `data`, writes a `NUL`
terminator in the slot immediately after them, keeps the buffer length,
and errs if and only if `len(data) >= capacity` (i.e. exactly when
truncation occurred). -/
theorem set_truncate_keeps_prefix_and_terminates (buffer data : List Nat)
    (h : 1 ≤ buffer.length) :
    ((CStrBuf.set_truncate buffer data).2.take (min data.length (buffer.length - 1)) =
        data.take (min data.length (buffer.length - 1))) ∧
    ((CStrBuf.set_truncate buffer data).2)[min data.length (buffer.length - 1)]? = some 0 ∧
    (CStrBuf.set_truncate buffer data).2.length = buffer.length ∧
    ((CStrBuf.set_truncate buffer data).1 = .error () ↔ buffer.length ≤ data.length) := by
  have hlen : (data.take (min (buffer.length - 1) data.length)).length =
      min (buffer.length - 1) data.length := by
    rw [List.length_take]
    omega
  obtain ⟨h1, h2, h3⟩ := append_terminator_spec
    (data.take (min (buffer.length - 1) data.length))
    (buffer.drop (min (buffer.length - 1) data.length + 1)) 0
    (min (buffer.length - 1) data.length) hlen
  rw [Nat.min_comm data.length (buffer.length - 1)]
  refine ⟨?_, h2, ?_, ?_⟩
  · rw [show (CStrBuf.set_truncate buffer data).2.take (min (buffer.length - 1) data.length) =
        data.take (min (buffer.length - 1) data.length) from h1]
  · show (data.take (min (buffer.length - 1) data.length) ++
        0 :: buffer.drop (min (buffer.length - 1) data.length + 1)).length = buffer.length
    simp only [List.length_append, List.length_cons, List.length_drop, List.length_take]
    omega
  · show (if data.length ≥ buffer.length then (Except.error () : Except Unit Unit)
        else .ok ()) = .error () ↔ buffer.length ≤ data.length
    by_cases hc : data.length ≥ buffer.length
    · rw [if_pos hc]
      exact iff_of_true rfl (by omega)
    · rw [if_neg hc]
      exact iff_of_false (fun hk => Except.noConfusion hk) (by omega)

/-- Witness for C3: capacity 8 and `data = b"1234567890"` - the spec's
scenario (a); the stored prefix is `"1234567"`, slot 7 holds the
terminator, and the truncation error is reported. -/
theorem set_truncate_keeps_prefix_and_terminates_witness :
    (1 ≤ ([102,102,102,102,102,102,102,102] : List Nat).length) ∧
    (((CStrBuf.set_truncate [102,102,102,102,102,102,102,102] [49,50,51,52,53,54,55,56,57,48]).2.take
          (min ([49,50,51,52,53,54,55,56,57,48] : List Nat).length
            (([102,102,102,102,102,102,102,102] : List Nat).length - 1)) =
        ([49,50,51,52,53,54,55,56,57,48] : List Nat).take
          (min ([49,50,51,52,53,54,55,56,57,48] : List Nat).length
            (([102,102,102,102,102,102,102,102] : List Nat).length - 1))) ∧
     ((CStrBuf.set_truncate [102,102,102,102,102,102,102,102] [49,50,51,52,53,54,55,56,57,48]).2)[
        min ([49,50,51,52,53,54,55,56,57,48] : List Nat).length
          (([102,102,102,102,102,102,102,102] : List Nat).length - 1)]? = some 0 ∧
     (CStrBuf.set_truncate [102,102,102,102,102,102,102,102] [49,50,51,52,53,54,55,56,57,48]).2.length =
        ([102,102,102,102,102,102,102,102] : List Nat).length ∧
     ((CStrBuf.set_truncate [102,102,102,102,102,102,102,102] [49,50,51,52,53,54,55,56,57,48]).1 = .error () ↔
        ([102,102,102,102,102,102,102,102] : List Nat).length ≤
          ([49,50,51,52,53,54,55,56,57,48] : List Nat).length)) :=
  ⟨by decide,
   set_truncate_keeps_prefix_and_terminates [102,102,102,102,102,102,102,102]
     [49,50,51,52,53,54,55,56,57,48] (by decide)⟩

/-- C7: the null `CStrPtr` reads as the empty string everywhere:
`is_empty` is true, `to_units` is the empty slice, `to_units_with_nul`
is the one-unit slice `[NUL]`, and `to_string_lossy` - for each of the
three lossy decoders the source instantiates it with - is the empty
text. -/
theorem cstrptr_null_reads_as_empty :
    CStrPtr.is_empty none = true ∧
    CStrPtr.to_units none = [] ∧
    CStrPtr.to_units_with_nul none = [0] ∧
    CStrPtr.to_string_lossy fromUtf8Lossy none = [] ∧
    CStrPtr.to_string_lossy fromUtf16Lossy none = [] ∧
    CStrPtr.to_string_lossy Utf32.to_string_lossy none = [] := by
  refine ⟨rfl, rfl, rfl, ?_, ?_, rfl⟩ <;>
    simp [CStrPtr.to_string_lossy, CStrPtr.to_units, fromUtf8Lossy, fromUtf16Lossy]

/-- The constructor result, characterised by one condition: `Ok` over
the given units exactly when validation passes, the last unit is `NUL`
and no earlier unit is `NUL`; `Err` otherwise. -/
theorem from_units_with_nul_characterisation (valid : Nat → Bool) (units : List Nat) :
    CStrPtr.from_units_with_nul valid units =
      (if units.all valid = true ∧ units.getLast? = some 0 ∧ ¬ (0 ∈ units.dropLast)
       then .ok units else .error ()) := by
  simp only [CStrPtr.from_units_with_nul]
  by_cases hall : units.all valid
  · rw [if_pos hall]
    cases hlast : units.getLast? with
    | none => simp [hall]
    | some last =>
      by_cases h0 : last = 0
      · subst h0
        by_cases hm : 0 ∈ units.dropLast
        · simp [hall, hm]
        · simp [hall, hm]
      · simp [hall, h0]
  · rw [if_neg hall, if_neg (by simp [hall])]

/-- C8: `from_units_with_nul` (identically on `CStrPtr` and
`CStrNonNull`) errs if and only if the units fail encoding validation,
or the sequence is empty or does not end in `NUL`, or a unit before the
last is `NUL`; otherwise it returns `Ok` over the given units. -/
theorem from_units_with_nul_error_conditions (valid : Nat → Bool) (units : List Nat) :
    CStrPtr.from_units_with_nul valid units = CStrNonNull.from_units_with_nul valid units ∧
    (CStrPtr.from_units_with_nul valid units = .ok units ↔
      (units.all valid = true ∧ units ≠ [] ∧ units.getLast? = some 0 ∧ ¬ (0 ∈ units.dropLast))) ∧
    (CStrPtr.from_units_with_nul valid units = .error () ↔
      (¬ units.all valid = true ∨ units = [] ∨ units.getLast? ≠ some 0 ∨ 0 ∈ units.dropLast)) := by
  have hchar := from_units_with_nul_characterisation valid units
  have hnil : units.getLast? = some 0 → units ≠ [] := by
    intro hl he
    subst he
    simp at hl
  refine ⟨rfl, ?_, ?_⟩ <;> rw [hchar] <;>
    by_cases hcond : units.all valid = true ∧ units.getLast? = some 0 ∧ ¬ (0 ∈ units.dropLast)
  · rw [if_pos hcond]
    exact iff_of_true rfl ⟨hcond.1, hnil hcond.2.1, hcond.2.1, hcond.2.2⟩
  · rw [if_neg hcond]
    refine iff_of_false (fun hk => Except.noConfusion hk) ?_
    intro ⟨ha, _, hc, hd⟩
    exact hcond ⟨ha, hc, hd⟩
  · rw [if_pos hcond]
    refine iff_of_false (fun hk => Except.noConfusion hk) ?_
    intro h
    rcases h with h | h | h | h
    · exact h hcond.1
    · exact hnil hcond.2.1 h
    · exact h hcond.2.1
    · exact hcond.2.2 h
  · rw [if_neg hcond]
    refine iff_of_true rfl ?_
    by_contra hno
    push_neg at hno
    exact hcond ⟨hno.1, hno.2.2.1, hno.2.2.2⟩

/-- One lossy UTF-8 step over a well-formed 1-byte sequence. -/
theorem fromUtf8Lossy_cons1 (b0 : Nat) (tl : List Nat) (h : b0 < 0x80) :
    fromUtf8Lossy (b0 :: tl) = b0 :: fromUtf8Lossy tl := by
  rw [fromUtf8Lossy.eq_def]
  simp only [h, ite_true]

/-- One lossy UTF-8 step over a well-formed 2-byte sequence. -/
theorem fromUtf8Lossy_cons2 (b0 b1 : Nat) (tl : List Nat)
    (h0 : 0xC2 ≤ b0) (h1 : b0 ≤ 0xDF) (hc : isUtf8Cont b1 = true) :
    fromUtf8Lossy (b0 :: b1 :: tl) = ((b0 % 32) * 64 + b1 % 64) :: fromUtf8Lossy tl := by
  have ha : ¬ (b0 < 0x80) := by omega
  have hb : ¬ (b0 < 0xC2) := by omega
  rw [fromUtf8Lossy.eq_def]
  simp only [ha, hb, h1, hc, if_true, if_false, ite_true, ite_false]

/-- One lossy UTF-8 step over a well-formed 3-byte sequence. -/
theorem fromUtf8Lossy_cons3 (b0 b1 b2 : Nat) (tl : List Nat)
    (h0 : 0xE0 ≤ b0) (h1 : b0 ≤ 0xEF)
    (hin : if b0 = 0xE0 then 0xA0 ≤ b1 ∧ b1 ≤ 0xBF
           else if b0 = 0xED then 0x80 ≤ b1 ∧ b1 ≤ 0x9F
           else isUtf8Cont b1 = true)
    (hc2 : isUtf8Cont b2 = true) :
    fromUtf8Lossy (b0 :: b1 :: b2 :: tl) =
      ((b0 % 16) * 4096 + (b1 % 64) * 64 + b2 % 64) :: fromUtf8Lossy tl := by
  have ha : ¬ (b0 < 0x80) := by omega
  have hb : ¬ (b0 < 0xC2) := by omega
  have hd : ¬ (b0 ≤ 0xDF) := by omega
  rw [fromUtf8Lossy.eq_def]
  simp only [ha, hb, hd, h1, hin, hc2, not_true_eq_false, if_true, if_false,
    ite_true, ite_false]

/-- One lossy UTF-8 step over a well-formed 4-byte sequence. -/
theorem fromUtf8Lossy_cons4 (b0 b1 b2 b3 : Nat) (tl : List Nat)
    (h0 : 0xF0 ≤ b0) (h1 : b0 ≤ 0xF4)
    (hin : if b0 = 0xF0 then 0x90 ≤ b1 ∧ b1 ≤ 0xBF
           else if b0 = 0xF4 then 0x80 ≤ b1 ∧ b1 ≤ 0x8F
           else isUtf8Cont b1 = true)
    (hc2 : isUtf8Cont b2 = true) (hc3 : isUtf8Cont b3 = true) :
    fromUtf8Lossy (b0 :: b1 :: b2 :: b3 :: tl) =
      ((b0 % 8) * 262144 + (b1 % 64) * 4096 + (b2 % 64) * 64 + b3 % 64) :: fromUtf8Lossy tl := by
  have ha : ¬ (b0 < 0x80) := by omega
  have hb : ¬ (b0 < 0xC2) := by omega
  have hd : ¬ (b0 ≤ 0xDF) := by omega
  have he : ¬ (b0 ≤ 0xEF) := by omega
  rw [fromUtf8Lossy.eq_def]
  simp only [ha, hb, hd, he, h1, hin, hc2, hc3, not_true_eq_false, if_true,
    if_false, ite_true, ite_false]

/-- Decoding the standard UTF-8 encoding of one scalar value in front of
any tail yields that scalar value and continues with the tail. -/
theorem fromUtf8Lossy_encodeChar (v : Nat) (hv : isUnicodeScalar v = true) (tl : List Nat) :
    fromUtf8Lossy (utf8EncodeChar v ++ tl) = v :: fromUtf8Lossy tl := by
  have hv' : v < 0xD800 ∨ (0xE000 ≤ v ∧ v < 0x110000) := by
    simpa [isUnicodeScalar, Bool.or_eq_true, Bool.and_eq_true, decide_eq_true_eq] using hv
  have hcont : ∀ w : Nat, isUtf8Cont (0x80 + w % 64) = true := by
    intro w
    simp only [isUtf8Cont, Bool.and_eq_true, decide_eq_true_eq]
    omega
  by_cases h1 : v < 0x80
  · simp only [utf8EncodeChar, h1, ite_true, List.cons_append, List.nil_append]
    exact fromUtf8Lossy_cons1 v tl h1
  · by_cases h2 : v < 0x800
    · simp only [utf8EncodeChar, h1, h2, ite_true, ite_false, List.cons_append, List.nil_append]
      rw [fromUtf8Lossy_cons2 _ _ tl (by omega) (by omega) (hcont v),
        show ((0xC0 + v / 64) % 32) * 64 + (0x80 + v % 64) % 64 = v by omega]
    · by_cases h3 : v < 0x10000
      · simp only [utf8EncodeChar, h1, h2, h3, ite_true, ite_false, List.cons_append,
          List.nil_append]
        have hin : if 0xE0 + v / 4096 = 0xE0 then
              0xA0 ≤ 0x80 + v / 64 % 64 ∧ 0x80 + v / 64 % 64 ≤ 0xBF
            else if 0xE0 + v / 4096 = 0xED then
              0x80 ≤ 0x80 + v / 64 % 64 ∧ 0x80 + v / 64 % 64 ≤ 0x9F
            else isUtf8Cont (0x80 + v / 64 % 64) = true := by
          by_cases he : 0xE0 + v / 4096 = 0xE0
          · rw [if_pos he]
            omega
          · rw [if_neg he]
            by_cases hed : 0xE0 + v / 4096 = 0xED
            · rw [if_pos hed]
              omega
            · rw [if_neg hed]
              exact hcont (v / 64)
        rw [fromUtf8Lossy_cons3 _ _ _ tl (by omega) (by omega) hin (hcont v),
          show ((0xE0 + v / 4096) % 16) * 4096 + ((0x80 + v / 64 % 64) % 64) * 64 +
            (0x80 + v % 64) % 64 = v by omega]
      · simp only [utf8EncodeChar, h1, h2, h3, ite_true, ite_false, List.cons_append,
          List.nil_append]
        have hin : if 0xF0 + v / 262144 = 0xF0 then
              0x90 ≤ 0x80 + v / 4096 % 64 ∧ 0x80 + v / 4096 % 64 ≤ 0xBF
            else if 0xF0 + v / 262144 = 0xF4 then
              0x80 ≤ 0x80 + v / 4096 % 64 ∧ 0x80 + v / 4096 % 64 ≤ 0x8F
            else isUtf8Cont (0x80 + v / 4096 % 64) = true := by
          by_cases he : 0xF0 + v / 262144 = 0xF0
          · rw [if_pos he]
            omega
          · rw [if_neg he]
            by_cases hf : 0xF0 + v / 262144 = 0xF4
            · rw [if_pos hf]
              omega
            · rw [if_neg hf]
              exact hcont (v / 4096)
        rw [fromUtf8Lossy_cons4 _ _ _ _ tl (by omega) (by omega) hin (hcont (v / 64)) (hcont v),
          show ((0xF0 + v / 262144) % 8) * 262144 + ((0x80 + v / 4096 % 64) % 64) * 4096 +
            ((0x80 + v / 64 % 64) % 64) * 64 + (0x80 + v % 64) % 64 = v by omega]

/-- Decoding the standard UTF-16 encoding of one scalar value in front
of any tail yields that scalar value and continues with the tail. -/
theorem fromUtf16Lossy_encodeChar (v : Nat) (hv : isUnicodeScalar v = true) (tl : List Nat) :
    fromUtf16Lossy (utf16EncodeChar v ++ tl) = v :: fromUtf16Lossy tl := by
  have hv' : v < 0xD800 ∨ (0xE000 ≤ v ∧ v < 0x110000) := by
    simpa [isUnicodeScalar, Bool.or_eq_true, Bool.and_eq_true, decide_eq_true_eq] using hv
  by_cases h1 : v < 0x10000
  · simp only [utf16EncodeChar, h1, ite_true, List.cons_append, List.nil_append]
    have hc : v < 0xD800 ∨ 0xE000 ≤ v := by omega
    rw [fromUtf16Lossy.eq_def]
    simp only [hc, ite_true]
  · simp only [utf16EncodeChar, h1, ite_false, List.cons_append, List.nil_append]
    have ha : ¬ (0xD800 + (v - 0x10000) / 0x400 < 0xD800 ∨
        0xE000 ≤ 0xD800 + (v - 0x10000) / 0x400) := by
      omega
    have hb : 0xD800 + (v - 0x10000) / 0x400 < 0xDC00 := by omega
    have hlo : 0xDC00 ≤ 0xDC00 + (v - 0x10000) % 0x400 ∧
        0xDC00 + (v - 0x10000) % 0x400 < 0xE000 := by omega
    rw [fromUtf16Lossy.eq_def]
    simp only [ha, hb, hlo, and_self, if_true, if_false, ite_true, ite_false]
    rw [show 0x10000 + (0xD800 + (v - 0x10000) / 0x400 - 0xD800) * 0x400 +
        (0xDC00 + (v - 0x10000) % 0x400 - 0xDC00) = v by omega]

/-- Lossy UTF-8 decoding inverts the standard encoding of scalar-value
sequences. -/
theorem fromUtf8Lossy_encode (s : List Nat) (hs : ∀ v ∈ s, isUnicodeScalar v = true) :
    fromUtf8Lossy (utf8Encode s) = s := by
  induction s with
  | nil => simp [utf8Encode, fromUtf8Lossy]
  | cons c cs ih =>
    simp only [utf8Encode]
    rw [fromUtf8Lossy_encodeChar c (hs c (by simp)) (utf8Encode cs),
      ih (fun v hv => hs v (by simp [hv]))]

/-- Lossy UTF-16 decoding inverts the standard encoding of scalar-value
sequences. -/
theorem fromUtf16Lossy_encode (s : List Nat) (hs : ∀ v ∈ s, isUnicodeScalar v = true) :
    fromUtf16Lossy (utf16Encode s) = s := by
  induction s with
  | nil => simp [utf16Encode, fromUtf16Lossy]
  | cons c cs ih =>
    simp only [utf16Encode]
    rw [fromUtf16Lossy_encodeChar c (hs c (by simp)) (utf16Encode cs),
      ih (fun v hv => hs v (by simp [hv]))]

/-- C6: on entirely valid input, the lossy display conversions are exact
- encoding any scalar-value sequence and running the respective
`to_string_lossy` body (`String::from_utf8_lossy`,
`String::from_utf16_lossy`, `String::from_iter`) returns the original
text with no replacement characters introduced. -/
theorem to_string_lossy_roundtrip (s : List Nat) (hs : ∀ v ∈ s, isUnicodeScalar v = true) :
    fromUtf8Lossy (utf8Encode s) = s ∧
    fromUtf16Lossy (utf16Encode s) = s ∧
    Utf32.to_string_lossy s = s :=
  ⟨fromUtf8Lossy_encode s hs, fromUtf16Lossy_encode s hs, rfl⟩

/-- Witness for C6 at the text `[0x41, 0xE9, 0x20AC, 0x10348]`. -/
theorem to_string_lossy_roundtrip_witness :
    (∀ v ∈ ([0x41, 0xE9, 0x20AC, 0x10348] : List Nat), isUnicodeScalar v = true) ∧
    (fromUtf8Lossy (utf8Encode [0x41, 0xE9, 0x20AC, 0x10348]) = [0x41, 0xE9, 0x20AC, 0x10348] ∧
     fromUtf16Lossy (utf16Encode [0x41, 0xE9, 0x20AC, 0x10348]) = [0x41, 0xE9, 0x20AC, 0x10348] ∧
     Utf32.to_string_lossy [0x41, 0xE9, 0x20AC, 0x10348] = [0x41, 0xE9, 0x20AC, 0x10348]) :=
  ⟨by decide, to_string_lossy_roundtrip _ (by decide)⟩
